import Mathlib

/-!
Verification of the scoring and ranking engine of the tippspiel repository
(`tipping/views.py` and the data model of `tipping/models.py`).

The Python source is shallowly embedded: nullable model fields become
`Option`, Python lists become `List`, mutating accumulator loops become
structurally recursive functions threading their accumulators, and Django
query-set filters become `List.filter`.
-/

namespace Tippspiel

/-- Embedding of `tipping.models.Match` (the fields the engine reads):
`matchday`, `home_score`, `away_score` are nullable integer columns. -/
structure MatchRow where
  matchId : Nat
  matchday : Option Int
  home_score : Option Int
  away_score : Option Int
deriving DecidableEq, Repr

/-- Embedding of `tipping.models.Prediction` (the fields the scorer reads):
`pred_home` / `pred_away` are independently nullable integer columns. -/
structure PredictionRow where
  pred_home : Option Int
  pred_away : Option Int
deriving DecidableEq, Repr

/-- Embedding of `Match.has_result` (models.py): both scores non-null. -/
def has_result (m : MatchRow) : Bool :=
  m.home_score.isSome && m.away_score.isSome

/-- Embedding of `_outcome` (views.py line 28):
`(h > a) - (h < a)`, i.e. 1 = home win, 0 = draw, -1 = away win. -/
def outcome (h a : Int) : Int :=
  (if h > a then 1 else 0) - (if h < a then 1 else 0)

/-- Embedding of `points_for_prediction` (views.py lines 33-60). -/
def points_for_prediction (m : MatchRow) (pred : Option PredictionRow) : Nat :=
  match pred with
  | none => 0
  | some p =>
    match m.home_score, m.away_score with
    | some hs, some as' =>
      match p.pred_home, p.pred_away with
      | some ph, some pa =>
        if ph = hs ∧ pa = as' then 4
        else if ph - pa = hs - as' then 3
        else if outcome ph pa = outcome hs as' then 2
        else 0
      | _, _ => 0
    | _, _ => 0

/-- Swapping home and away on the actual result of a match. -/
def swap_match (m : MatchRow) : MatchRow :=
  ⟨m.matchId, m.matchday, m.away_score, m.home_score⟩

/-- Swapping home and away on a prediction. -/
def swap_pred (p : PredictionRow) : PredictionRow :=
  ⟨p.pred_away, p.pred_home⟩

/-- Embedding of `tipping.models.Tournament` (the fields the engine reads):
`season_start` is a nullable timestamp, the four outcome fields are plain
(possibly empty) strings, `relegated_teams` is a comma-separated string. -/
structure Tournament where
  season_start : Option Int
  autumn_champion : String
  champion : String
  first_coach_sacked : String
  top_scorer : String
  relegated_teams : String
deriving DecidableEq, Repr

/-- Embedding of `tipping.models.BonusPrediction` (the fields the scorer reads). -/
structure BonusPredictionRow where
  bonus_type : String
  value : String
deriving DecidableEq, Repr

/-- Python `str.lower()` (ASCII case fold), applied characterwise. -/
def lowerStr (s : String) : String := ⟨s.data.map Char.toLower⟩

/-- Python `str.strip()`: drop leading and trailing whitespace. -/
def stripStr (s : String) : String :=
  ⟨((s.data.dropWhile Char.isWhitespace).reverse.dropWhile Char.isWhitespace).reverse⟩

/-- Embedding of `_norm` inside `bonus_points_for_user`:
`(s or "").strip().lower()`. -/
def norm (s : String) : String := lowerStr (stripStr s)

/-- Helper for `splitComma`, accumulating the current piece in reverse. -/
def splitCommaAux : List Char → List Char → List String
  | [], acc => [⟨acc.reverse⟩]
  | c :: cs, acc =>
    if c = ',' then ⟨acc.reverse⟩ :: splitCommaAux cs []
    else splitCommaAux cs (c :: acc)

/-- Python `str.split(",")`. -/
def splitComma (s : String) : List String := splitCommaAux s.data []

def real_herbst (t : Tournament) : String := norm t.autumn_champion

def real_meister (t : Tournament) : String := norm t.champion

def real_trainer (t : Tournament) : String := norm t.first_coach_sacked

def real_topscorer (t : Tournament) : String := norm t.top_scorer

/-- Embedding of `relegated_set`:
`{_norm(x) for x in relegated_raw.split(",") if _norm(x)}`, kept as a list
whose membership coincides with the Python set's membership. -/
def relegated_set (t : Tournament) : List String :=
  ((splitComma t.relegated_teams).map norm).filter (fun x => x ≠ "")

/-- Embedding of the accumulator loop of `bonus_points_for_user`
(views.py lines 89-111): `counted` is the `counted_relegations` set (as the
list of values inserted so far), `pts` the running total. -/
def bonus_scan (t : Tournament) : List BonusPredictionRow → List String → Nat → Nat
  | [], _counted, pts => pts
  | bp :: rest, counted, pts =>
    if norm bp.value = "" then bonus_scan t rest counted pts
    else if bp.bonus_type = "herbstmeister" ∧ real_herbst t ≠ "" ∧
        norm bp.value = real_herbst t then
      bonus_scan t rest counted (pts + 5)
    else if bp.bonus_type = "meister" ∧ real_meister t ≠ "" ∧
        norm bp.value = real_meister t then
      bonus_scan t rest counted (pts + 5)
    else if bp.bonus_type = "trainer_first" ∧ real_trainer t ≠ "" ∧
        norm bp.value = real_trainer t then
      bonus_scan t rest counted (pts + 5)
    else if bp.bonus_type = "topscorer" ∧ real_topscorer t ≠ "" ∧
        norm bp.value = real_topscorer t then
      bonus_scan t rest counted (pts + 5)
    else if (bp.bonus_type = "relegation1" ∨ bp.bonus_type = "relegation2") ∧
        relegated_set t ≠ [] ∧ norm bp.value ∈ relegated_set t then
      if norm bp.value ∉ counted then
        bonus_scan t rest (norm bp.value :: counted) (pts + 5)
      else bonus_scan t rest counted pts
    else bonus_scan t rest counted pts

/-- Embedding of `bonus_points_for_user` (views.py lines 63-113). -/
def bonus_points_for_user (t : Tournament) (preds : List BonusPredictionRow) : Nat :=
  bonus_scan t preds [] 0

/-- A bonus prediction hitting one of the four single-valued categories. -/
def SingleHit (t : Tournament) (bp : BonusPredictionRow) : Prop :=
  norm bp.value ≠ "" ∧
    ((bp.bonus_type = "herbstmeister" ∧ real_herbst t ≠ "" ∧
        norm bp.value = real_herbst t) ∨
     (bp.bonus_type = "meister" ∧ real_meister t ≠ "" ∧
        norm bp.value = real_meister t) ∨
     (bp.bonus_type = "trainer_first" ∧ real_trainer t ≠ "" ∧
        norm bp.value = real_trainer t) ∨
     (bp.bonus_type = "topscorer" ∧ real_topscorer t ≠ "" ∧
        norm bp.value = real_topscorer t))

/-- A bonus prediction hitting the relegation category. -/
def RelegHit (t : Tournament) (bp : BonusPredictionRow) : Prop :=
  norm bp.value ≠ "" ∧
    (bp.bonus_type = "relegation1" ∨ bp.bonus_type = "relegation2") ∧
    relegated_set t ≠ [] ∧ norm bp.value ∈ relegated_set t

instance (t : Tournament) (bp : BonusPredictionRow) : Decidable (SingleHit t bp) := by
  unfold SingleHit; infer_instance

instance (t : Tournament) (bp : BonusPredictionRow) : Decidable (RelegHit t bp) := by
  unfold RelegHit; infer_instance

/-- Number of correct non-relegation bonus predictions in a list. -/
def single_count (t : Tournament) (preds : List BonusPredictionRow) : Nat :=
  preds.countP (fun bp => decide (SingleHit t bp))

/-- Normalized values of the correct relegation predictions in a list. -/
def releg_vals (t : Tournament) (preds : List BonusPredictionRow) : List String :=
  (preds.filter (fun bp => decide (RelegHit t bp))).map (fun bp => norm bp.value)

/-- Embedding of the per-user, per-matchday accumulator loop of `tabelle`
(views.py lines 702-710): `scored_any` and `total` thread the Python locals. -/
def md_scan (predOf : MatchRow → Option PredictionRow) :
    List MatchRow → Bool → Nat → Bool × Nat
  | [], scored_any, total => (scored_any, total)
  | m :: rest, scored_any, total =>
    if m.home_score = none ∨ m.away_score = none then
      md_scan predOf rest scored_any total
    else
      md_scan predOf rest true (total + points_for_prediction m (predOf m))

/-- Embedding of the `md_points[u.id][md]` computation of `tabelle`
(views.py lines 696-712) for one user and one matchday: `none` when the
matchday has no matches or no match with a result, else the summed total. -/
def md_points_cell (predOf : MatchRow → Option PredictionRow)
    (md_matches : List MatchRow) : Option Nat :=
  if md_matches = [] then none
  else if (md_scan predOf md_matches false 0).1 then
    some (md_scan predOf md_matches false 0).2
  else none

/-- Embedding of a group member (the fields the ranking reads). -/
structure UserRow where
  userId : Nat
  username : String
deriving DecidableEq, Repr

/-- Python string comparison (code-point lexicographic) on character lists. -/
def charLeList : List Char → List Char → Bool
  | [], _ => true
  | _ :: _, [] => false
  | a :: xs, b :: ys =>
    if a.toNat < b.toNat then true
    else if b.toNat < a.toNat then false
    else charLeList xs ys

/-- Python `a <= b` for strings. -/
def strLe (a b : String) : Bool := charLeList a.data b.data

/-- The sort key of `sortable.sort(key=lambda x: (-x[0], x[1]))`
(views.py line 733): descending points, ascending lowercased username. -/
def entryLe (x y : Nat × String × Nat) : Prop :=
  y.1 < x.1 ∨ (x.1 = y.1 ∧ strLe x.2.1 y.2.1 = true)

instance : DecidableRel entryLe := fun x y => by
  unfold entryLe; infer_instance

/-- Embedding of the `sortable` list of `tabelle` (views.py lines 727-731):
one entry `(pts or 0, username.lower(), user id)` per user. -/
def sortable_of (users : List UserRow) (md_pts : Nat → Option Nat) :
    List (Nat × String × Nat) :=
  users.map (fun u => ((md_pts u.userId).getD 0, lowerStr u.username, u.userId))

/-- Embedding of the rank-assignment loop of `tabelle` (views.py lines 735-741):
`idx` is the 1-based enumeration index, `rank` and `lastPts` the loop state. -/
def rank_loop : List (Nat × String × Nat) → Nat → Nat → Option Nat → List (Nat × Nat)
  | [], _idx, _rank, _lastPts => []
  | e :: rest, idx, rank, lastPts =>
    if lastPts = none ∨ ¬ lastPts = some e.1 then
      (e.2.2, idx) :: rank_loop rest (idx + 1) idx (some e.1)
    else
      (e.2.2, rank) :: rank_loop rest (idx + 1) rank lastPts

/-- Embedding of the per-matchday ranking of `tabelle` (views.py lines 727-741):
sort the sortable list, then assign competition ranks. -/
def assign_ranks (users : List UserRow) (md_pts : Nat → Option Nat) :
    List (Nat × Nat) :=
  rank_loop (List.insertionSort entryLe (sortable_of users md_pts)) 1 0 none

/-- Embedding of `any_results` (views.py lines 718-721). -/
def any_results (ms : List MatchRow) : Bool :=
  ms.any (fun m => m.home_score.isSome && m.away_score.isSome)

/-- Embedding of `rank_by_md[md]` (views.py lines 717-741) as a lookup:
every user's rank is `none` when no match of the matchday has a result. -/
def rank_by_md_cell (users : List UserRow) (ms : List MatchRow)
    (md_pts : Nat → Option Nat) (uid : Nat) : Option Nat :=
  if any_results ms then (assign_ranks users md_pts).lookup uid else none

/-- Number of entries of a sortable list with strictly more points than `p`. -/
def greater_count (l : List (Nat × String × Nat)) (p : Nat) : Nat :=
  (l.filter (fun x => p < x.1)).length

/-- Embedding of the rank-delta computation of `tabelle` (views.py lines
746-762) for the i-th shown matchday column and one user: `none` when there is
no previous column in the window or either rank is missing, else
`previous rank - current rank`. -/
def rankdiff_cell (shown : List Int) (rank_by : Int → Nat → Option Nat)
    (i : Nat) (uid : Nat) : Option Int :=
  match shown[i]? with
  | none => none
  | some md =>
    match (if i > 0 then shown[i - 1]? else none) with
    | none => none
    | some prev_md_local =>
      match rank_by md uid, rank_by prev_md_local uid with
      | some cur, some prev => some ((prev : Int) - (cur : Int))
      | _, _ => none

/-- Embedding of the count clamping of `tabelle` (views.py line 580):
`count = max(4, min(count, 15))`. -/
def clamp_count (count : Int) : Int := max 4 (min count 15)

/-- Embedding of the from-index clamping of `tabelle` (views.py lines 608-611):
a negative offset becomes 0, an offset at or beyond the number of matchdays
becomes `max(0, n - count)`. -/
def clamp_from (from_idx : Int) (n : Nat) (c : Int) : Int :=
  let f := if from_idx < 0 then 0 else from_idx
  if f ≥ (n : Int) then max 0 ((n : Int) - c) else f

/-- Embedding of one row of the `finished_preds` query of `tabelle`
(views.py lines 629-638): a prediction joined with its match and its user id. -/
structure PredJoinRow where
  user_id : Nat
  matchRow : MatchRow
  pred : PredictionRow
deriving DecidableEq, Repr

/-- Embedding of the `finished_preds` queryset filter (views.py lines 629-638):
predictions whose match has both scores non-null. -/
def finished_preds (rows : List PredJoinRow) : List PredJoinRow :=
  rows.filter (fun r => has_result r.matchRow)

/-- Embedding of the Σ accumulation `total_points_all` (views.py lines 640-642)
for one user: the user's finished rows summed through the match scorer. -/
def total_points_all (rows : List PredJoinRow) (uid : Nat) : Nat :=
  (((finished_preds rows).filter (fun r => r.user_id = uid)).map
    (fun r => points_for_prediction r.matchRow (some r.pred))).sum

/-- Embedding of `bonus_reveal` (views.py lines 560-562):
`bool(season_start and now >= season_start)`. -/
def bonus_reveal (season_start : Option Int) (now : Int) : Bool :=
  match season_start with
  | none => false
  | some s => s ≤ now

/-- Embedding of the season total of `tabelle` (views.py lines 640-668): the Σ
over all finished predictions, plus bonus points iff `bonus_reveal`. -/
def season_total (t : Tournament) (now : Int) (rows : List PredJoinRow)
    (bonus : List BonusPredictionRow) (uid : Nat) : Nat :=
  total_points_all rows uid +
    (if bonus_reveal t.season_start now then bonus_points_for_user t bonus else 0)

/-- The distinct non-null matchdays of a match list (views.py lines 583-590:
`exclude(matchday__isnull=True) ... distinct()`). -/
def matchdays_of (ms : List MatchRow) : List Int :=
  (ms.filterMap (fun m => m.matchday)).dedup

/-- The matches of one matchday. -/
def matches_of_md (ms : List MatchRow) (md : Int) : List MatchRow :=
  ms.filter (fun m => m.matchday = some md)

/-- The §4.7 "sum of all matchdays with results": per-matchday aggregates over
every matchday of the tournament, matchdays without results contributing 0. -/
def sum_md_points (ms : List MatchRow)
    (predOf : MatchRow → Option PredictionRow) : Nat :=
  ((matchdays_of ms).map
    (fun md => (md_points_cell predOf (matches_of_md ms md)).getD 0)).sum

/-- Match-scorer points from the matches with a null matchday (excluded from
every matchday-based view, §3 of the spec). -/
def null_md_points (ms : List MatchRow)
    (predOf : MatchRow → Option PredictionRow) : Nat :=
  ((ms.filter (fun m => m.matchday = none)).map
    (fun m => points_for_prediction m (predOf m))).sum

theorem outcome_eq_sign (h a : Int) : outcome h a = (h - a).sign := by
  rcases lt_trichotomy h a with hlt | heq | hgt
  · rw [Int.sign_eq_neg_one_of_neg (by omega : h - a < 0)]
    simp only [outcome]
    rw [if_neg (by omega), if_pos hlt]
    decide
  · rw [show h - a = 0 by omega, Int.sign_zero]
    simp only [outcome]
    rw [if_neg (by omega), if_neg (by omega)]
    decide
  · rw [Int.sign_eq_one_of_pos (by omega : 0 < h - a)]
    simp only [outcome]
    rw [if_pos hgt, if_neg (by omega)]
    decide

theorem outcome_eq_iff (a b c d : Int) :
    outcome a b = outcome c d ↔ ((b < a ∧ d < c) ∨ (a = b ∧ c = d) ∨ (a < b ∧ c < d)) := by
  simp only [outcome]
  split_ifs <;> omega

theorem points_for_prediction_some (m : MatchRow) (q : PredictionRow)
    (ph pa hs as' : Int) (hph : q.pred_home = some ph) (hpa : q.pred_away = some pa)
    (hhs : m.home_score = some hs) (has : m.away_score = some as') :
    points_for_prediction m (some q) =
      if ph = hs ∧ pa = as' then 4
      else if ph - pa = hs - as' then 3
      else if outcome ph pa = outcome hs as' then 2
      else 0 := by
  simp only [points_for_prediction, hph, hpa, hhs, has]

theorem points_eq_zero_of_missing (m : MatchRow) (q : PredictionRow)
    (h : m.home_score = none ∨ m.away_score = none ∨
         q.pred_home = none ∨ q.pred_away = none) :
    points_for_prediction m (some q) = 0 := by
  obtain ⟨mid, md, mh, ma⟩ := m
  obtain ⟨qh, qa⟩ := q
  simp only at h
  cases mh <;> cases ma <;> cases qh <;> cases qa <;> first
    | rfl
    | simp_all

/-- C1: `points_for_prediction` returns 0 when the prediction is absent, a side of
the match result is missing, or a side of the prediction is missing; otherwise it
returns 4 iff the predicted pair equals the actual pair exactly, 3 iff the goal
difference matches but the pair is not identical, 2 iff the tendency (sign of home
minus away) matches but the goal difference does not, and 0 otherwise. -/
theorem C1_match_scorer (m : MatchRow) (p : Option PredictionRow) :
    ((p = none ∨ m.home_score = none ∨ m.away_score = none ∨
        (∀ q, p = some q → q.pred_home = none ∨ q.pred_away = none)) →
      points_for_prediction m p = 0)
  ∧ (∀ q ph pa hs as', p = some q → q.pred_home = some ph → q.pred_away = some pa →
      m.home_score = some hs → m.away_score = some as' →
      ((points_for_prediction m p = 4 ↔ (ph = hs ∧ pa = as'))
     ∧ (points_for_prediction m p = 3 ↔ (ph - pa = hs - as' ∧ ¬(ph = hs ∧ pa = as')))
     ∧ (points_for_prediction m p = 2 ↔
          ((ph - pa).sign = (hs - as').sign ∧ ph - pa ≠ hs - as'))
     ∧ (points_for_prediction m p = 0 ↔ (ph - pa).sign ≠ (hs - as').sign))) := by
  constructor
  · rintro (rfl | hm | hm | hq)
    · rfl
    · cases p with
      | none => rfl
      | some q => exact points_eq_zero_of_missing m q (Or.inl hm)
    · cases p with
      | none => rfl
      | some q => exact points_eq_zero_of_missing m q (Or.inr (Or.inl hm))
    · cases p with
      | none => rfl
      | some q =>
        rcases hq q rfl with h | h
        · exact points_eq_zero_of_missing m q (Or.inr (Or.inr (Or.inl h)))
        · exact points_eq_zero_of_missing m q (Or.inr (Or.inr (Or.inr h)))
  · rintro q ph pa hs as' rfl hph hpa hhs has
    rw [points_for_prediction_some m q ph pa hs as' hph hpa hhs has]
    rw [← outcome_eq_sign ph pa, ← outcome_eq_sign hs as']
    simp only [ne_eq, outcome_eq_iff]
    split_ifs <;> refine ⟨?_, ?_, ?_, ?_⟩ <;> first
      | omega
      | (simp only [false_iff, not_not]; omega)

/-- C8: for all score pairs the match scorer's result lies in {0,2,3,4}, and the
scorer is symmetric under relabeling home and away consistently on both the
predicted and the actual pair. -/
theorem C8_range_and_symmetry :
    (∀ m p, points_for_prediction m p = 0 ∨ points_for_prediction m p = 2 ∨
        points_for_prediction m p = 3 ∨ points_for_prediction m p = 4)
  ∧ (∀ m p, points_for_prediction (swap_match m) (Option.map swap_pred p) =
        points_for_prediction m p) := by
  constructor
  · intro m p
    obtain ⟨mid, md, mh, ma⟩ := m
    cases p with
    | none => exact Or.inl rfl
    | some q =>
      obtain ⟨qh, qa⟩ := q
      cases mh <;> cases ma <;> cases qh <;> cases qa <;>
          try exact Or.inl rfl
      simp only [points_for_prediction]
      split_ifs <;> omega
  · intro m p
    obtain ⟨mid, md, mh, ma⟩ := m
    cases p with
    | none => rfl
    | some q =>
      obtain ⟨qh, qa⟩ := q
      cases mh <;> cases ma <;> cases qh <;> cases qa <;> try rfl
      simp only [Option.map_some', swap_match, swap_pred, points_for_prediction]
      simp only [ne_eq, outcome_eq_iff]
      split_ifs <;> omega

theorem card_insert_eq_card_erase_add_one {α : Type} [DecidableEq α]
    (s : Finset α) (a : α) : (insert a s).card = (s.erase a).card + 1 := by
  by_cases h : a ∈ s
  · rw [Finset.insert_eq_self.mpr h, Finset.card_erase_of_mem h]
    have : 1 ≤ s.card := Finset.one_le_card.mpr ⟨a, h⟩
    omega
  · rw [Finset.card_insert_of_not_mem h, Finset.erase_eq_of_not_mem h]

theorem releg_vals_cons_hit (t : Tournament) (bp : BonusPredictionRow)
    (rest : List BonusPredictionRow) (h : decide (RelegHit t bp) = true) :
    releg_vals t (bp :: rest) = norm bp.value :: releg_vals t rest := by
  simp [releg_vals, List.filter_cons, h]

theorem releg_vals_cons_miss (t : Tournament) (bp : BonusPredictionRow)
    (rest : List BonusPredictionRow) (h : decide (RelegHit t bp) = false) :
    releg_vals t (bp :: rest) = releg_vals t rest := by
  simp [releg_vals, List.filter_cons, h]

theorem single_count_cons_hit (t : Tournament) (bp : BonusPredictionRow)
    (rest : List BonusPredictionRow) (h : decide (SingleHit t bp) = true) :
    single_count t (bp :: rest) = single_count t rest + 1 := by
  simp [single_count, List.countP_cons, h]

theorem single_count_cons_miss (t : Tournament) (bp : BonusPredictionRow)
    (rest : List BonusPredictionRow) (h : decide (SingleHit t bp) = false) :
    single_count t (bp :: rest) = single_count t rest := by
  simp [single_count, List.countP_cons, h]

theorem bonus_scan_closed (t : Tournament) (preds : List BonusPredictionRow) :
    ∀ (counted : List String) (pts : Nat),
      bonus_scan t preds counted pts =
        pts + 5 * single_count t preds +
          5 * ((releg_vals t preds).toFinset \ counted.toFinset).card := by
  induction preds with
  | nil =>
    intro counted pts
    simp [bonus_scan, single_count, releg_vals]
  | cons bp rest ih =>
    intro counted pts
    by_cases h0 : norm bp.value = ""
    · have hs : decide (SingleHit t bp) = false := by
        simp only [decide_eq_false_iff_not, SingleHit]
        rintro ⟨hne, -⟩; exact hne h0
      have hr : decide (RelegHit t bp) = false := by
        simp only [decide_eq_false_iff_not, RelegHit]
        rintro ⟨hne, -⟩; exact hne h0
      simp only [bonus_scan, if_pos h0]
      rw [ih counted pts, releg_vals_cons_miss t bp rest hr,
        single_count_cons_miss t bp rest hs]
    · by_cases h1 : bp.bonus_type = "herbstmeister" ∧ real_herbst t ≠ "" ∧
          norm bp.value = real_herbst t
      · have hs : decide (SingleHit t bp) = true := decide_eq_true ⟨h0, Or.inl h1⟩
        have hr : decide (RelegHit t bp) = false := by
          simp only [decide_eq_false_iff_not, RelegHit]
          rintro ⟨-, hbt, -, -⟩
          rcases hbt with hbt | hbt <;>
            exact absurd (h1.1.symm.trans hbt) (by decide)
        simp only [bonus_scan, if_neg h0, if_pos h1]
        rw [ih counted (pts + 5), releg_vals_cons_miss t bp rest hr,
          single_count_cons_hit t bp rest hs]
        omega
      · by_cases h2 : bp.bonus_type = "meister" ∧ real_meister t ≠ "" ∧
            norm bp.value = real_meister t
        · have hs : decide (SingleHit t bp) = true :=
            decide_eq_true ⟨h0, Or.inr (Or.inl h2)⟩
          have hr : decide (RelegHit t bp) = false := by
            simp only [decide_eq_false_iff_not, RelegHit]
            rintro ⟨-, hbt, -, -⟩
            rcases hbt with hbt | hbt <;>
              exact absurd (h2.1.symm.trans hbt) (by decide)
          simp only [bonus_scan, if_neg h0, if_neg h1, if_pos h2]
          rw [ih counted (pts + 5), releg_vals_cons_miss t bp rest hr,
            single_count_cons_hit t bp rest hs]
          omega
        · by_cases h3 : bp.bonus_type = "trainer_first" ∧ real_trainer t ≠ "" ∧
              norm bp.value = real_trainer t
          · have hs : decide (SingleHit t bp) = true :=
              decide_eq_true ⟨h0, Or.inr (Or.inr (Or.inl h3))⟩
            have hr : decide (RelegHit t bp) = false := by
              simp only [decide_eq_false_iff_not, RelegHit]
              rintro ⟨-, hbt, -, -⟩
              rcases hbt with hbt | hbt <;>
                exact absurd (h3.1.symm.trans hbt) (by decide)
            simp only [bonus_scan, if_neg h0, if_neg h1, if_neg h2, if_pos h3]
            rw [ih counted (pts + 5), releg_vals_cons_miss t bp rest hr,
              single_count_cons_hit t bp rest hs]
            omega
          · by_cases h4 : bp.bonus_type = "topscorer" ∧ real_topscorer t ≠ "" ∧
                norm bp.value = real_topscorer t
            · have hs : decide (SingleHit t bp) = true :=
                decide_eq_true ⟨h0, Or.inr (Or.inr (Or.inr h4))⟩
              have hr : decide (RelegHit t bp) = false := by
                simp only [decide_eq_false_iff_not, RelegHit]
                rintro ⟨-, hbt, -, -⟩
                rcases hbt with hbt | hbt <;>
                  exact absurd (h4.1.symm.trans hbt) (by decide)
              simp only [bonus_scan, if_neg h0, if_neg h1, if_neg h2, if_neg h3,
                if_pos h4]
              rw [ih counted (pts + 5), releg_vals_cons_miss t bp rest hr,
                single_count_cons_hit t bp rest hs]
              omega
            · by_cases h5 : (bp.bonus_type = "relegation1" ∨
                  bp.bonus_type = "relegation2") ∧
                  relegated_set t ≠ [] ∧ norm bp.value ∈ relegated_set t
              · have hs : decide (SingleHit t bp) = false := by
                  simp only [decide_eq_false_iff_not, SingleHit]
                  rintro ⟨-, hd⟩
                  rcases hd with hd | hd | hd | hd
                  exacts [h1 hd, h2 hd, h3 hd, h4 hd]
                have hr : decide (RelegHit t bp) = true :=
                  decide_eq_true ⟨h0, h5.1, h5.2.1, h5.2.2⟩
                simp only [bonus_scan, if_neg h0, if_neg h1, if_neg h2, if_neg h3,
                  if_neg h4, if_pos h5]
                by_cases hc : norm bp.value ∈ counted
                · rw [if_neg (not_not_intro hc), ih counted pts,
                    releg_vals_cons_hit t bp rest hr,
                    single_count_cons_miss t bp rest hs, List.toFinset_cons,
                    Finset.insert_sdiff_of_mem _ (List.mem_toFinset.mpr hc)]
                · rw [if_pos hc, ih (norm bp.value :: counted) (pts + 5),
                    releg_vals_cons_hit t bp rest hr,
                    single_count_cons_miss t bp rest hs, List.toFinset_cons,
                    List.toFinset_cons, Finset.sdiff_insert,
                    Finset.insert_sdiff_of_not_mem _
                      (fun hmem => hc (List.mem_toFinset.mp hmem)),
                    card_insert_eq_card_erase_add_one]
                  omega
              · have hs : decide (SingleHit t bp) = false := by
                  simp only [decide_eq_false_iff_not, SingleHit]
                  rintro ⟨-, hd⟩
                  rcases hd with hd | hd | hd | hd
                  exacts [h1 hd, h2 hd, h3 hd, h4 hd]
                have hr : decide (RelegHit t bp) = false := by
                  simp only [decide_eq_false_iff_not, RelegHit]
                  rintro ⟨-, ha, hb, hcc⟩
                  exact h5 ⟨ha, hb, hcc⟩
                simp only [bonus_scan, if_neg h0, if_neg h1, if_neg h2, if_neg h3,
                  if_neg h4, if_neg h5]
                rw [ih counted pts, releg_vals_cons_miss t bp rest hr,
                  single_count_cons_miss t bp rest hs]

theorem bonus_points_closed_form (t : Tournament) (preds : List BonusPredictionRow) :
    bonus_points_for_user t preds =
      5 * single_count t preds + 5 * (releg_vals t preds).toFinset.card := by
  have h := bonus_scan_closed t preds [] 0
  simpa [bonus_points_for_user] using h

/-- Witness for C1 at a concrete input: result 2:1, prediction 3:2 scores 3
(goal difference matches, pair not identical), and an absent prediction scores 0. -/
theorem C1_match_scorer_witness :
    points_for_prediction ⟨0, none, some 2, some 1⟩ (some ⟨some 3, some 2⟩) = 3 ∧
    points_for_prediction ⟨0, none, some 2, some 1⟩ none = 0 :=
  ⟨((C1_match_scorer ⟨0, none, some 2, some 1⟩ (some ⟨some 3, some 2⟩)).2
      ⟨some 3, some 2⟩ 3 2 2 1 rfl rfl rfl rfl rfl).2.1.mpr (by decide),
   (C1_match_scorer ⟨0, none, some 2, some 1⟩ none).1 (Or.inl rfl)⟩

/-- C2: the bonus scorer never credits the same normalized value twice across
the `relegation1`/`relegation2` slots in one call: the total is 5 per correct
non-relegation prediction plus 5 per *distinct* correct relegation value, and in
particular picks relegation1 = "X", relegation2 = "X" against relegated set
{"X","Y"} contribute exactly 5, not 10. -/
theorem C2_relegation_no_double_credit (t : Tournament)
    (preds : List BonusPredictionRow) :
    bonus_points_for_user t preds =
      5 * single_count t preds + 5 * (releg_vals t preds).toFinset.card
  ∧ bonus_points_for_user ⟨none, "", "", "", "", "X, Y"⟩
      [⟨"relegation1", "X"⟩, ⟨"relegation2", "X"⟩] = 5 := by
  refine ⟨bonus_points_closed_form t preds, ?_⟩
  decide

/-- C9: the bonus scorer is invariant under permutation of its input list:
despite the order-dependent `counted_relegations` set, the total is
5 * (number of correct non-relegation predictions) plus
5 * (number of distinct correct relegation values), independent of list order. -/
theorem C9_bonus_scorer_perm_invariant (t : Tournament)
    (l1 l2 : List BonusPredictionRow) (h : l1.Perm l2) :
    bonus_points_for_user t l1 = bonus_points_for_user t l2
  ∧ bonus_points_for_user t l1 =
      5 * single_count t l1 + 5 * (releg_vals t l1).toFinset.card := by
  refine ⟨?_, bonus_points_closed_form t l1⟩
  rw [bonus_points_closed_form t l1, bonus_points_closed_form t l2]
  have hc : single_count t l1 = single_count t l2 := h.countP_eq _
  have hv : (releg_vals t l1).toFinset = (releg_vals t l2).toFinset :=
    List.toFinset_eq_of_perm _ _ ((h.filter _).map _)
  rw [hc, hv]

/-- Witness for C9 at a concrete input: swapping the two relegation picks in the
input list does not change the bonus total. -/
theorem C9_bonus_scorer_perm_invariant_witness :
    bonus_points_for_user ⟨none, "", "", "", "", "X, Y"⟩
        [⟨"relegation2", "Y"⟩, ⟨"relegation1", "X"⟩] =
      bonus_points_for_user ⟨none, "", "", "", "", "X, Y"⟩
        [⟨"relegation1", "X"⟩, ⟨"relegation2", "Y"⟩] :=
  (C9_bonus_scorer_perm_invariant ⟨none, "", "", "", "", "X, Y"⟩
    [⟨"relegation2", "Y"⟩, ⟨"relegation1", "X"⟩]
    [⟨"relegation1", "X"⟩, ⟨"relegation2", "Y"⟩] (by decide)).1

theorem points_eq_zero_of_no_result (m : MatchRow) (p : Option PredictionRow)
    (h : m.home_score = none ∨ m.away_score = none) :
    points_for_prediction m p = 0 := by
  cases p with
  | none => rfl
  | some q => exact points_eq_zero_of_missing m q (by tauto)

theorem md_scan_spec (predOf : MatchRow → Option PredictionRow)
    (ms : List MatchRow) :
    ∀ (b : Bool) (tot : Nat),
      md_scan predOf ms b tot =
        (b || ms.any (fun m => has_result m),
         tot + (ms.map (fun m => points_for_prediction m (predOf m))).sum) := by
  induction ms with
  | nil =>
    intro b tot
    simp [md_scan]
  | cons m rest ih =>
    intro b tot
    by_cases h : m.home_score = none ∨ m.away_score = none
    · have hres : has_result m = false := by
        simp only [has_result]
        rcases h with h | h <;> simp [h]
      have hz : points_for_prediction m (predOf m) = 0 :=
        points_eq_zero_of_no_result m _ h
      simp only [md_scan, if_pos h, List.any_cons, hres, List.map_cons,
        List.sum_cons, hz]
      rw [ih b tot]
      simp
    · have hres : has_result m = true := by
        push_neg at h
        simp only [has_result, Bool.and_eq_true, Option.isSome_iff_ne_none]
        exact ⟨h.1, h.2⟩
      simp only [md_scan, if_neg h, List.any_cons, hres, List.map_cons,
        List.sum_cons]
      rw [ih true (tot + points_for_prediction m (predOf m))]
      simp only [Bool.true_or, Bool.or_true, Prod.mk.injEq, true_and]
      omega

/-- C4: the matchday aggregate is `none` exactly when no match of the matchday
has a result (even if predictions exist), and once at least one match has a
result it is a numeric value: the sum of the match scorer over all matches of
the matchday, matches without results contributing 0 rather than none. -/
theorem C4_matchday_aggregator (predOf : MatchRow → Option PredictionRow)
    (ms : List MatchRow) :
    (md_points_cell predOf ms = none ↔ ∀ m ∈ ms, has_result m = false)
  ∧ ((∃ m ∈ ms, has_result m = true) →
      md_points_cell predOf ms =
        some ((ms.map (fun m => points_for_prediction m (predOf m))).sum)) := by
  have h1 := md_scan_spec predOf ms false 0
  have hfst : (md_scan predOf ms false 0).1 = ms.any (fun m => has_result m) := by
    rw [h1]
    simp
  have hsnd : (md_scan predOf ms false 0).2 =
      (ms.map (fun m => points_for_prediction m (predOf m))).sum := by
    rw [h1]
    simp
  by_cases he : ms = []
  · subst he
    constructor
    · simp [md_points_cell]
    · rintro ⟨m, hm, -⟩
      exact absurd hm (List.not_mem_nil m)
  · constructor
    · simp only [md_points_cell, if_neg he, hfst, hsnd]
      cases hany : ms.any (fun m => has_result m) with
      | false =>
        simp only [Bool.false_eq_true, if_false, eq_self_iff_true, true_iff]
        intro m hm
        have hall := List.any_eq_false.mp hany m hm
        simpa using hall
      | true =>
        simp only [if_true]
        constructor
        · intro hcontr
          exact absurd hcontr (by simp)
        · intro hall
          rcases List.any_eq_true.mp hany with ⟨m, hm, hres⟩
          rw [hall m hm] at hres
          exact absurd hres (by simp)
    · intro hex
      have hany : ms.any (fun m => has_result m) = true := by
        rcases hex with ⟨m, hm, hres⟩
        exact List.any_eq_true.mpr ⟨m, hm, hres⟩
      simp only [md_points_cell, if_neg he, hfst, hsnd, hany, if_true]

/-- Witness for C4 at a concrete input: a matchday with one finished match and
no prediction aggregates to `some 0`, not `none`. -/
theorem C4_matchday_aggregator_witness :
    md_points_cell (fun _ => none) [⟨1, some 1, some 1, some 0⟩] = some 0 := by
  rw [(C4_matchday_aggregator (fun _ => none) [⟨1, some 1, some 1, some 0⟩]).2
    ⟨⟨1, some 1, some 1, some 0⟩, by simp, by decide⟩]
  decide

theorem charLeList_total : ∀ (a b : List Char),
    charLeList a b = true ∨ charLeList b a = true
  | [], _ => Or.inl rfl
  | _ :: _, [] => Or.inr rfl
  | x :: xs, y :: ys => by
    simp only [charLeList]
    rcases Nat.lt_trichotomy x.toNat y.toNat with h | h | h
    · left
      rw [if_pos h]
    · rw [if_neg (by omega), if_neg (by omega), if_neg (by omega), if_neg (by omega)]
      exact charLeList_total xs ys
    · right
      rw [if_pos h]

theorem charLeList_trans : ∀ (a b c : List Char),
    charLeList a b = true → charLeList b c = true → charLeList a c = true
  | [], _, _, _, _ => rfl
  | _ :: _, [], _, h, _ => by simp [charLeList] at h
  | _ :: _, _ :: _, [], _, h => by simp [charLeList] at h
  | x :: xs, y :: ys, z :: zs, h1, h2 => by
    simp only [charLeList] at h1 h2 ⊢
    rcases Nat.lt_trichotomy x.toNat y.toNat with hxy | hxy | hxy <;>
      rcases Nat.lt_trichotomy y.toNat z.toNat with hyz | hyz | hyz
    · rw [if_pos (by omega)]
    · rw [if_pos (by omega)]
    · rw [if_neg (by omega), if_pos hyz] at h2
      exact absurd h2 (by simp)
    · rw [if_pos (by omega)]
    · rw [if_neg (by omega), if_neg (by omega)]
      rw [if_neg (by omega), if_neg (by omega)] at h1
      rw [if_neg (by omega), if_neg (by omega)] at h2
      exact charLeList_trans xs ys zs h1 h2
    · rw [if_neg (by omega), if_pos hyz] at h2
      exact absurd h2 (by simp)
    · rw [if_neg (by omega), if_pos hxy] at h1
      exact absurd h1 (by simp)
    · rw [if_neg (by omega), if_pos hxy] at h1
      exact absurd h1 (by simp)
    · rw [if_neg (by omega), if_pos hxy] at h1
      exact absurd h1 (by simp)

theorem entryLe_total (x y : Nat × String × Nat) : entryLe x y ∨ entryLe y x := by
  unfold entryLe
  rcases Nat.lt_trichotomy x.1 y.1 with h | h | h
  · exact Or.inr (Or.inl h)
  · rcases charLeList_total x.2.1.data y.2.1.data with hl | hl
    · exact Or.inl (Or.inr ⟨h, hl⟩)
    · exact Or.inr (Or.inr ⟨h.symm, hl⟩)
  · exact Or.inl (Or.inl h)

theorem entryLe_trans (x y z : Nat × String × Nat)
    (hxy : entryLe x y) (hyz : entryLe y z) : entryLe x z := by
  unfold entryLe at hxy hyz ⊢
  rcases hxy with h | ⟨h1, h2⟩ <;> rcases hyz with g | ⟨g1, g2⟩
  · exact Or.inl (by omega)
  · exact Or.inl (by omega)
  · exact Or.inl (by omega)
  · exact Or.inr ⟨by omega, charLeList_trans _ _ _ h2 g2⟩

theorem greater_count_cons (e : Nat × String × Nat) (l : List (Nat × String × Nat))
    (p : Nat) :
    greater_count (e :: l) p = (if p < e.1 then 1 else 0) + greater_count l p := by
  simp only [greater_count, List.filter_cons]
  by_cases h : p < e.1
  · simp [h]
    omega
  · simp [h]

theorem greater_count_eq_zero (l : List (Nat × String × Nat)) (p : Nat)
    (h : ∀ x ∈ l, x.1 ≤ p) : greater_count l p = 0 := by
  simp only [greater_count, List.length_eq_zero, List.filter_eq_nil_iff]
  intro x hx
  simpa using Nat.not_lt.mpr (h x hx)

theorem greater_count_perm (l1 l2 : List (Nat × String × Nat))
    (h : l1.Perm l2) (p : Nat) : greater_count l1 p = greater_count l2 p := by
  simp only [greater_count]
  exact (h.filter _).length_eq

theorem rank_loop_go (s : List (Nat × String × Nat)) :
    ∀ (idx rank lp : Nat),
      s.Sorted (fun x y => y.1 ≤ x.1) →
      (∀ e ∈ s, e.1 ≤ lp) →
      rank_loop s idx rank (some lp) =
        s.map (fun e => (e.2.2,
          if e.1 = lp then rank else idx + greater_count s e.1)) := by
  induction s with
  | nil =>
    intro idx rank lp _ _
    rfl
  | cons e rest ih =>
    intro idx rank lp hsort hle
    have hrest_sorted : rest.Sorted (fun x y => y.1 ≤ x.1) := hsort.of_cons
    have hrest_le : ∀ x ∈ rest, x.1 ≤ e.1 := fun x hx =>
      List.rel_of_sorted_cons hsort x hx
    by_cases hlp : e.1 = lp
    · have hcond : ¬ ((some lp : Option Nat) = none ∨
          ¬ (some lp : Option Nat) = some e.1) := by
        simp [hlp]
      simp only [rank_loop, if_neg hcond]
      rw [ih (idx + 1) rank lp hrest_sorted
        (fun x hx => hle x (List.mem_cons_of_mem e hx))]
      simp only [List.map_cons, if_pos hlp]
      congr 1
      apply List.map_congr_left
      intro x hx
      by_cases hxlp : x.1 = lp
      · simp [hxlp]
      · simp only [if_neg hxlp, Prod.mk.injEq, true_and]
        have hxe : x.1 < e.1 := by
          have h1 := hrest_le x hx
          omega
        rw [greater_count_cons e rest x.1, if_pos hxe]
        omega
    · have hcond : (some lp : Option Nat) = none ∨
          ¬ (some lp : Option Nat) = some e.1 := by
        right
        simp
        omega
      simp only [rank_loop, if_pos hcond]
      rw [ih (idx + 1) idx e.1 hrest_sorted hrest_le]
      simp only [List.map_cons, if_neg hlp]
      have hgc0 : greater_count (e :: rest) e.1 = 0 :=
        greater_count_eq_zero (e :: rest) e.1 (by
          intro x hx
          rcases List.mem_cons.mp hx with h | h
          · simp [h]
          · exact hrest_le x h)
      rw [hgc0]
      congr 1
      apply List.map_congr_left
      intro x hx
      have hxle : x.1 ≤ e.1 := hrest_le x hx
      have hxlp : ¬ x.1 = lp := by
        have : e.1 ≤ lp := hle e (List.mem_cons_self e rest)
        omega
      simp only [if_neg hxlp, Prod.mk.injEq, true_and]
      by_cases hxe : x.1 = e.1
      · have hgcr : greater_count rest x.1 = 0 :=
          greater_count_eq_zero rest x.1 (by
            intro y hy
            have := hrest_le y hy
            omega)
        rw [if_pos hxe, greater_count_cons e rest x.1, if_neg (by omega), hgcr]
        omega
      · rw [if_neg hxe, greater_count_cons e rest x.1, if_pos (by omega)]
        omega

theorem rank_loop_sorted_spec (s : List (Nat × String × Nat))
    (hs : s.Sorted (fun x y => y.1 ≤ x.1)) :
    rank_loop s 1 0 none =
      s.map (fun e => (e.2.2, 1 + greater_count s e.1)) := by
  cases s with
  | nil => rfl
  | cons e rest =>
    have hrest_le : ∀ x ∈ rest, x.1 ≤ e.1 := fun x hx =>
      List.rel_of_sorted_cons hs x hx
    simp only [rank_loop, eq_self_iff_true, true_or, if_true, List.map_cons]
    rw [rank_loop_go rest (1 + 1) 1 e.1 hs.of_cons hrest_le]
    have hgc0 : greater_count (e :: rest) e.1 = 0 :=
      greater_count_eq_zero (e :: rest) e.1 (by
        intro x hx
        rcases List.mem_cons.mp hx with h | h
        · simp [h]
        · exact hrest_le x h)
    rw [hgc0]
    congr 1
    apply List.map_congr_left
    intro x hx
    have hxle : x.1 ≤ e.1 := hrest_le x hx
    simp only [Prod.mk.injEq, true_and]
    by_cases hxe : x.1 = e.1
    · have hgcr : greater_count rest x.1 = 0 :=
        greater_count_eq_zero rest x.1 (by
          intro y hy
          have := hrest_le y hy
          omega)
      rw [if_pos hxe, greater_count_cons e rest x.1, if_neg (by omega), hgcr]
    · rw [if_neg hxe, greater_count_cons e rest x.1, if_pos (by omega)]
      omega

theorem rank_loop_keys (s : List (Nat × String × Nat)) :
    ∀ (idx rank : Nat) (lastPts : Option Nat),
      (rank_loop s idx rank lastPts).map Prod.fst = s.map (fun e => e.2.2) := by
  induction s with
  | nil =>
    intro idx rank lastPts
    rfl
  | cons e rest ih =>
    intro idx rank lastPts
    by_cases hcond : lastPts = none ∨ ¬ lastPts = some e.1
    · simp only [rank_loop, if_pos hcond, List.map_cons, ih]
    · simp only [rank_loop, if_neg hcond, List.map_cons, ih]

theorem sortable_sorted_desc (users : List UserRow) (md_pts : Nat → Option Nat) :
    (List.insertionSort entryLe (sortable_of users md_pts)).Sorted
      (fun x y => y.1 ≤ x.1) := by
  haveI : IsTotal (Nat × String × Nat) entryLe := ⟨entryLe_total⟩
  haveI : IsTrans (Nat × String × Nat) entryLe := ⟨entryLe_trans⟩
  have hs := List.sorted_insertionSort entryLe (sortable_of users md_pts)
  exact hs.imp (fun h => by
    unfold entryLe at h
    rcases h with h | ⟨h, -⟩ <;> omega)

theorem lookup_isSome_of_mem_keys (l : List (Nat × Nat)) (a : Nat)
    (h : a ∈ l.map Prod.fst) : (l.lookup a).isSome = true := by
  induction l with
  | nil => simp at h
  | cons e rest ih =>
    simp only [List.lookup]
    cases hbe : a == e.1 with
    | true => rfl
    | false =>
      apply ih
      simp only [List.map_cons, List.mem_cons] at h
      rcases h with h | h
      · exact absurd (beq_iff_eq.mpr h) (by simp [hbe])
      · exact h

/-- C3: the ranking engine sorts descending by points with ties broken ascending
by case-insensitive username, and assigns competition ranks: every entry's rank
equals 1 plus the number of entries with strictly more points, so equal points
share a rank and the next distinct point value receives the rank equal to its
1-based position in the sorted order; points [10,10,7,5,5] yield ranks
[1,1,3,4,4]. -/
theorem C3_ranking_engine (users : List UserRow) (md_pts : Nat → Option Nat) :
    assign_ranks users md_pts =
      (List.insertionSort entryLe (sortable_of users md_pts)).map
        (fun e => (e.2.2, 1 + greater_count (sortable_of users md_pts) e.1))
  ∧ assign_ranks
      [⟨1, "ana"⟩, ⟨2, "ben"⟩, ⟨3, "cara"⟩, ⟨4, "dan"⟩, ⟨5, "eva"⟩]
      (fun i => if i = 1 then some 10 else if i = 2 then some 10 else
        if i = 3 then some 7 else some 5) =
      [(1, 1), (2, 1), (3, 3), (4, 4), (5, 4)] := by
  constructor
  · rw [assign_ranks, rank_loop_sorted_spec _ (sortable_sorted_desc users md_pts)]
    apply List.map_congr_left
    intro e he
    simp only [Prod.mk.injEq, true_and]
    congr 1
    exact greater_count_perm _ _ (List.perm_insertionSort entryLe _) e.1
  · decide

/-- C10: whenever at least one match of a matchday has a result, every user of
the group receives a numeric rank for that matchday; a user whose matchday
aggregate is `none` is ranked as if they had 0 points, not omitted. -/
theorem C10_every_user_ranked (users : List UserRow) (ms : List MatchRow)
    (md_pts : Nat → Option Nat) (h : any_results ms = true) :
    (∀ u ∈ users, (rank_by_md_cell users ms md_pts u.userId).isSome = true)
  ∧ (∀ uid, rank_by_md_cell users ms md_pts uid =
      rank_by_md_cell users ms (fun i => some ((md_pts i).getD 0)) uid) := by
  have hsortable : sortable_of users (fun i => some ((md_pts i).getD 0)) =
      sortable_of users md_pts := by
    apply List.map_congr_left
    intro u hu
    simp
  constructor
  · intro u hu
    rw [rank_by_md_cell, if_pos h]
    apply lookup_isSome_of_mem_keys
    rw [assign_ranks, rank_loop_keys _ 1 0 none]
    have hmem : u.userId ∈ (sortable_of users md_pts).map (fun e => e.2.2) := by
      simp only [sortable_of, List.map_map]
      exact List.mem_map.mpr ⟨u, hu, rfl⟩
    exact ((List.perm_insertionSort entryLe _).map _).mem_iff.mpr hmem
  · intro uid
    rw [rank_by_md_cell, rank_by_md_cell, assign_ranks, assign_ranks, hsortable]

/-- Witness for C10 at a concrete input: with one finished match, replacing a
`none` matchday aggregate by `some 0` leaves the rank lookup unchanged. -/
theorem C10_every_user_ranked_witness :
    rank_by_md_cell [⟨1, "ana"⟩] [⟨1, none, some 2, some 2⟩] (fun _ => none) 1 =
      rank_by_md_cell [⟨1, "ana"⟩] [⟨1, none, some 2, some 2⟩]
        (fun i => some (((fun _ => (none : Option Nat)) i).getD 0)) 1 :=
  (C10_every_user_ranked [⟨1, "ana"⟩] [⟨1, none, some 2, some 2⟩]
    (fun _ => none) (by decide)).2 1

/-- C6: the rank delta equals previousRank - currentRank (positive = improved)
when both the current column and the immediately preceding column in the window
have a rank for the user; it is none when either side lacks a rank; and the
first shown column of the window always has a none delta. -/
theorem C6_rank_delta (shown : List Int) (rank_by : Int → Nat → Option Nat)
    (uid : Nat) :
    (∀ i md pmd cur prev, shown[i]? = some md → 0 < i →
        shown[i - 1]? = some pmd →
        rank_by md uid = some cur → rank_by pmd uid = some prev →
        rankdiff_cell shown rank_by i uid = some ((prev : Int) - (cur : Int)))
  ∧ (∀ i md pmd, shown[i]? = some md → 0 < i →
        shown[i - 1]? = some pmd →
        (rank_by md uid = none ∨ rank_by pmd uid = none) →
        rankdiff_cell shown rank_by i uid = none)
  ∧ (rankdiff_cell shown rank_by 0 uid = none) := by
  refine ⟨?_, ?_, ?_⟩
  · intro i md pmd cur prev hmd hi hpmd hcur hprev
    simp [rankdiff_cell, hmd, hpmd, hcur, hprev, hi]
  · intro i md pmd hmd hi hpmd hnone
    rcases hnone with hnone | hnone
    · simp [rankdiff_cell, hmd, hpmd, hnone, hi]
    · simp only [rankdiff_cell, hmd, if_pos hi, hpmd]
      cases rank_by md uid <;> simp [hnone]
  · cases h0 : shown[0]? <;> simp [rankdiff_cell, h0]

/-- Witness for C6 at a concrete input: previous rank 5, current rank 2 gives
delta +3 for the second shown column. -/
theorem C6_rank_delta_witness :
    rankdiff_cell [3, 4] (fun md _ => if md = 3 then some 5 else some 2) 1 7 =
      some 3 := by
  have h := (C6_rank_delta [3, 4] (fun md _ => if md = 3 then some 5 else some 2)
    7).1 1 4 3 2 5 rfl (by decide) rfl (by decide) (by decide)
  rw [h]
  decide

/-- C7: pagination inputs are clamped, never rejected: the count is clamped
into [4,15] (below 4 becomes 4, above 15 becomes 15) and the offset is clamped
so a negative offset becomes 0 and an offset at or beyond the number n ≥ 1 of
matchdays becomes the start of the last full window `max(0, n - count)`;
in-range offsets pass through and the clamped offset is a valid index. -/
theorem C7_pagination_clamped (from_idx count : Int) (n : Nat) (hn : 1 ≤ n) :
    (clamp_count count = if count < 4 then 4 else if 15 < count then 15 else count)
  ∧ (4 ≤ clamp_count count ∧ clamp_count count ≤ 15)
  ∧ (from_idx < 0 → clamp_from from_idx n (clamp_count count) = 0)
  ∧ ((n : Int) ≤ from_idx →
      clamp_from from_idx n (clamp_count count) =
        max 0 ((n : Int) - clamp_count count))
  ∧ (0 ≤ from_idx → from_idx < (n : Int) →
      clamp_from from_idx n (clamp_count count) = from_idx)
  ∧ (0 ≤ clamp_from from_idx n (clamp_count count) ∧
      clamp_from from_idx n (clamp_count count) < (n : Int)) := by
  simp only [clamp_count, clamp_from]
  refine ⟨?_, ?_, ?_, ?_, ?_, ?_⟩ <;> first
    | (split_ifs <;> omega)
    | omega

/-- Witness for C7 at a concrete input: requested offset 50 and count 100 over
10 matchdays clamp to offset 0 (the last full window start) and count 15. -/
theorem C7_pagination_clamped_witness :
    clamp_from 50 10 (clamp_count 100) = max 0 ((10 : Int) - clamp_count 100) ∧
    clamp_count 100 = 15 := by
  constructor
  · exact (C7_pagination_clamped 50 100 10 (by decide)).2.2.2.1 (by decide)
  · decide

theorem no_result_cases (m : MatchRow) (h : has_result m = false) :
    m.home_score = none ∨ m.away_score = none := by
  cases hh : m.home_score with
  | none => exact Or.inl rfl
  | some x =>
    cases ha : m.away_score with
    | none => exact Or.inr rfl
    | some y =>
      exfalso
      rw [has_result, hh, ha] at h
      simp at h

theorem md_points_cell_getD (predOf : MatchRow → Option PredictionRow)
    (group : List MatchRow) :
    (md_points_cell predOf group).getD 0 =
      (group.map (fun m => points_for_prediction m (predOf m))).sum := by
  by_cases he : group = []
  · subst he
    rfl
  · have h1 := md_scan_spec predOf group false 0
    have hfst : (md_scan predOf group false 0).1 =
        group.any (fun m => has_result m) := by
      rw [h1]
      simp
    have hsnd : (md_scan predOf group false 0).2 =
        (group.map (fun m => points_for_prediction m (predOf m))).sum := by
      rw [h1]
      simp
    simp only [md_points_cell, if_neg he, hfst, hsnd]
    cases hany : group.any (fun m => has_result m) with
    | true => simp
    | false =>
      simp only [Bool.false_eq_true, if_false, Option.getD_none]
      symm
      apply List.sum_eq_zero
      intro x hx
      rcases List.mem_map.mp hx with ⟨m, hm, rfl⟩
      exact points_eq_zero_of_no_result m _
        (no_result_cases m (by simpa using List.any_eq_false.mp hany m hm))

theorem sum_map_filter_split {α : Type} (l : List α) (p : α → Bool) (f : α → Nat) :
    (l.map f).sum =
      ((l.filter p).map f).sum + ((l.filter (fun x => !(p x))).map f).sum := by
  induction l with
  | nil => rfl
  | cons x xs ih =>
    cases hp : p x <;>
      simp [List.filter_cons, hp, ih] <;> omega

theorem sum_split_keys (f : MatchRow → Nat) :
    ∀ (keys : List Int) (ms : List MatchRow),
      keys.Nodup →
      (∀ m ∈ ms, m.matchday = none ∨ ∃ md ∈ keys, m.matchday = some md) →
      (ms.map f).sum =
        (keys.map (fun md =>
          ((ms.filter (fun m => m.matchday = some md)).map f).sum)).sum +
          ((ms.filter (fun m => m.matchday = none)).map f).sum := by
  intro keys
  induction keys with
  | nil =>
    intro ms _ hcov
    have hall : ms.filter (fun m => m.matchday = none) = ms := by
      apply List.filter_eq_self.mpr
      intro m hm
      rcases hcov m hm with h | ⟨md, hmd, -⟩
      · simp [h]
      · exact absurd hmd (List.not_mem_nil md)
    simp [hall]
  | cons k rest ih =>
    intro ms hnodup hcov
    have hsplit := sum_map_filter_split ms (fun m => m.matchday = some k) f
    have hrest := ih (ms.filter (fun m => !(decide (m.matchday = some k))))
      hnodup.of_cons (by
        intro m hm
        have hm' := List.mem_filter.mp hm
        rcases hcov m hm'.1 with h | ⟨md, hmd, hsome⟩
        · exact Or.inl h
        · rcases List.mem_cons.mp hmd with hk | hk
          · exfalso
            have : decide (m.matchday = some k) = true := by
              subst hk
              simp [hsome]
            simp [this] at hm'
          · exact Or.inr ⟨md, hk, hsome⟩)
    have hgroups : ∀ md ∈ rest,
        (ms.filter (fun m => !(decide (m.matchday = some k)))).filter
            (fun m => m.matchday = some md) =
          ms.filter (fun m => m.matchday = some md) := by
      intro md hmd
      have hkmd : md ≠ k := by
        intro heq
        subst heq
        exact (List.nodup_cons.mp hnodup).1 hmd
      rw [List.filter_filter]
      apply List.filter_congr
      intro m hm
      cases hcase : decide (m.matchday = some md) with
      | false => simp [hcase]
      | true =>
        have : m.matchday = some md := of_decide_eq_true hcase
        simp [hcase, this, hkmd]
    have hnull :
        (ms.filter (fun m => !(decide (m.matchday = some k)))).filter
            (fun m => m.matchday = none) =
          ms.filter (fun m => m.matchday = none) := by
      rw [List.filter_filter]
      apply List.filter_congr
      intro m hm
      cases hcase : decide (m.matchday = none) with
      | false => simp [hcase]
      | true =>
        have : m.matchday = none := of_decide_eq_true hcase
        simp [hcase, this]
    rw [hsplit, List.map_cons, List.sum_cons, hrest, hnull]
    have hmaps : (rest.map (fun md =>
        (((ms.filter (fun m => !(decide (m.matchday = some k)))).filter
          (fun m => m.matchday = some md)).map f).sum)) =
        (rest.map (fun md =>
          ((ms.filter (fun m => m.matchday = some md)).map f).sum)) := by
      apply List.map_congr_left
      intro md hmd
      rw [hgroups md hmd]
    rw [hmaps]
    omega

theorem filterMap_finished_sum (uid : Nat) (ms : List MatchRow)
    (predOf : MatchRow → Option PredictionRow) :
    (((ms.filterMap (fun m => (predOf m).map
        (fun p => (⟨uid, m, p⟩ : PredJoinRow)))).filter
          (fun r => has_result r.matchRow)).map
      (fun r => points_for_prediction r.matchRow (some r.pred))).sum =
      (ms.map (fun m => points_for_prediction m (predOf m))).sum := by
  induction ms with
  | nil => rfl
  | cons m rest ih =>
    cases hp : predOf m with
    | none =>
      simp only [List.filterMap_cons, hp, Option.map_none', List.map_cons,
        List.sum_cons, ih]
      have h0 : points_for_prediction m none = 0 := rfl
      rw [h0]
      omega
    | some p =>
      simp only [List.filterMap_cons, hp, Option.map_some', List.filter_cons,
        List.map_cons, List.sum_cons]
      cases hr : has_result m with
      | true =>
        simp only [hr, if_true, List.map_cons, List.sum_cons, ih]
      | false =>
        simp only [hr, Bool.false_eq_true, if_false, ih]
        have h0 : points_for_prediction m (some p) = 0 :=
          points_eq_zero_of_no_result m (some p) (no_result_cases m hr)
        rw [h0]
        omega

theorem total_points_all_eq (rows : List PredJoinRow) (uid : Nat)
    (ms : List MatchRow) (predOf : MatchRow → Option PredictionRow)
    (hrows : rows.filter (fun r => r.user_id = uid) =
      ms.filterMap (fun m => (predOf m).map
        (fun p => (⟨uid, m, p⟩ : PredJoinRow)))) :
    total_points_all rows uid =
      (ms.map (fun m => points_for_prediction m (predOf m))).sum := by
  unfold total_points_all finished_preds
  rw [List.filter_filter]
  have hswap : rows.filter
      (fun r => decide (r.user_id = uid) && has_result r.matchRow) =
      (rows.filter (fun r => r.user_id = uid)).filter
        (fun r => has_result r.matchRow) := by
    rw [List.filter_filter]
    apply List.filter_congr
    intro r hr
    rw [Bool.and_comm]
  rw [hswap, hrows]
  exact filterMap_finished_sum uid ms predOf

theorem sum_points_partition (ms : List MatchRow)
    (predOf : MatchRow → Option PredictionRow) :
    (ms.map (fun m => points_for_prediction m (predOf m))).sum =
      sum_md_points ms predOf + null_md_points ms predOf := by
  rw [sum_md_points, null_md_points]
  have hcov : ∀ m ∈ ms, m.matchday = none ∨
      ∃ md ∈ matchdays_of ms, m.matchday = some md := by
    intro m hm
    cases hmd : m.matchday with
    | none => exact Or.inl rfl
    | some md =>
      refine Or.inr ⟨md, ?_, rfl⟩
      rw [matchdays_of, List.mem_dedup]
      exact List.mem_filterMap.mpr ⟨m, hm, hmd⟩
  have hpart := sum_split_keys (fun m => points_for_prediction m (predOf m))
    (matchdays_of ms) ms (List.nodup_dedup _) hcov
  rw [hpart]
  have hcells : ((matchdays_of ms).map
      (fun md => (md_points_cell predOf (matches_of_md ms md)).getD 0)) =
      ((matchdays_of ms).map (fun md =>
        ((ms.filter (fun m => m.matchday = some md)).map
          (fun m => points_for_prediction m (predOf m))).sum)) := by
    apply List.map_congr_left
    intro md hmd
    rw [md_points_cell_getD, matches_of_md]
  rw [hcells]

/-- C5 counterexample: with a single finished match whose matchday is null and
an exact prediction on it, the code's season total is 4 while the sum of
per-matchday points over all matchdays (plus the bonus term, reveal false) is
0, so the claim as stated fails. -/
theorem C5_counterexample :
    ¬ (season_total ⟨none, "", "", "", "", ""⟩ 0
        [⟨7, ⟨1, none, some 1, some 0⟩, ⟨some 1, some 0⟩⟩] [] 7 =
      sum_md_points [⟨1, none, some 1, some 0⟩]
          (fun m => if m.matchId = 1 then some ⟨some 1, some 0⟩ else none) +
        (if bonus_reveal (none : Option Int) 0
         then bonus_points_for_user ⟨none, "", "", "", "", ""⟩ [] else 0)) := by
  decide

/-- C5 (amended): for a user whose prediction rows correspond exactly to
`predOf` over the tournament's matches `ms`, the season total equals the sum of
per-matchday points over all matchdays (not only the shown window) plus the
match-scorer points of the matches with a null matchday, plus the user's bonus
points iff bonus reveal is true (season_start set and now ≥ season_start);
while reveal is false the bonus is entirely excluded. -/
theorem C5_season_total_amended (t : Tournament) (now : Int)
    (rows : List PredJoinRow) (bonus : List BonusPredictionRow) (uid : Nat)
    (ms : List MatchRow) (predOf : MatchRow → Option PredictionRow)
    (hrows : rows.filter (fun r => r.user_id = uid) =
      ms.filterMap (fun m => (predOf m).map
        (fun p => (⟨uid, m, p⟩ : PredJoinRow)))) :
    season_total t now rows bonus uid =
      sum_md_points ms predOf + null_md_points ms predOf +
        (if bonus_reveal t.season_start now
         then bonus_points_for_user t bonus else 0) := by
  rw [season_total, total_points_all_eq rows uid ms predOf hrows,
    sum_points_partition ms predOf]

/-- Witness for C5 (amended) at a concrete input: one finished match on
matchday 3 with an exact prediction, bonus not revealed. -/
theorem C5_season_total_amended_witness :
    season_total ⟨none, "", "", "", "", ""⟩ 0
        [⟨7, ⟨1, some 3, some 1, some 0⟩, ⟨some 1, some 0⟩⟩] [] 7 =
      sum_md_points [⟨1, some 3, some 1, some 0⟩]
          (fun m => if m.matchId = 1 then some ⟨some 1, some 0⟩ else none) +
        null_md_points [⟨1, some 3, some 1, some 0⟩]
          (fun m => if m.matchId = 1 then some ⟨some 1, some 0⟩ else none) +
        (if bonus_reveal (Tournament.season_start ⟨none, "", "", "", "", ""⟩) 0
         then bonus_points_for_user ⟨none, "", "", "", "", ""⟩ [] else 0) :=
  C5_season_total_amended ⟨none, "", "", "", "", ""⟩ 0
    [⟨7, ⟨1, some 3, some 1, some 0⟩, ⟨some 1, some 0⟩⟩] [] 7
    [⟨1, some 3, some 1, some 0⟩]
    (fun m => if m.matchId = 1 then some ⟨some 1, some 0⟩ else none)
    (by decide)

end Tippspiel
